import Mathlib

/-!
Verification development for the seiro protocol runtime
(packages/seiro/src: server.ts, protocol.ts, client.ts).

The embedding models:
* the pattern matcher shared by server and client (`matchPattern`);
* the server dispatch engine for commands and queries
  (`handleCmd`, `handleQuery`, mirroring `handleMessage`);
* the server subscription state machine (connection open, sub, unsub,
  close) and its subscription-index invariant;
* the client command path (`clientCmd`) and reply routing;
* the client pull-based query iterator (`pull`/`deliver`/`run`),
  the bridge from push-based row delivery to a pull-based sequence;
* the event fan-out on both sides (`emitSends`, `clientEventFires`).

Strings from the wire are modelled as `List Char` where character-level
operations matter (patterns, channels) and as `String` where they are
opaque keys (names, correlation ids, error texts).
-/

namespace Seiro

/-- Channel / pattern strings, at character granularity (JS strings are
indexed sequences of code units; `endsWith`/`slice`/`startsWith` are
modelled on `List Char`). -/
abbrev Str := List Char

/-- JS `pattern.endsWith("*")`: true iff the string is nonempty and its
last character is `*`. -/
def endsWithStar (p : Str) : Bool :=
  match p.getLast? with
  | some c => c = '*'
  | none => false

/-- server.ts lines 92-98, `matchPattern(pattern, channel)`:
exact equality, else if the pattern ends in `*`, prefix test against the
pattern with the trailing `*` removed (`pattern.slice(0, -1)`). -/
def matchPattern (pattern channel : Str) : Bool :=
  if pattern = channel then true
  else if endsWithStar pattern then (pattern.dropLast).isPrefixOf channel
  else false

/-- client.ts lines 265-271, `matchPattern(pattern, eventName)`: the
client's own copy of the matcher, textually identical logic. -/
def matchPatternClient (pattern eventName : Str) : Bool :=
  if pattern = eventName then true
  else if endsWithStar pattern then (pattern.dropLast).isPrefixOf eventName
  else false

/-- Reference semantics from the spec: a pattern matches a channel iff it
equals the channel exactly, or it ends with `*` and the channel starts
with the pattern minus its trailing `*`. -/
def matchSpec (p c : Str) : Prop :=
  p = c ∨ (p.getLast? = some '*' ∧ p.dropLast <+: c)

instance (p c : Str) : Decidable (matchSpec p c) := by
  unfold matchSpec; infer_instance

lemma endsWithStar_iff (p : Str) : endsWithStar p = true ↔ p.getLast? = some '*' := by
  unfold endsWithStar
  cases h : p.getLast? with
  | none => simp
  | some c => simp [h, decide_eq_true_eq]

/-- **C7.** The client's and the server's pattern matchers are
extensionally equal, and both agree with the reference semantics:
`match(p, c)` holds iff `p = c`, or `p` ends with `*` and `c` starts with
`p` with the trailing `*` removed. -/
theorem matchPattern_client_eq_server_eq_spec (p c : Str) :
    matchPattern p c = matchPatternClient p c ∧
      (matchPattern p c = true ↔ matchSpec p c) := by
  refine ⟨rfl, ?_⟩
  unfold matchPattern matchSpec
  by_cases hpc : p = c
  · simp [hpc]
  · simp only [hpc, if_false, false_or]
    by_cases hstar : endsWithStar p = true
    · rw [endsWithStar_iff] at hstar
      simp [hstar, endsWithStar_iff, List.isPrefixOf_iff_prefix]
    · have : p.getLast? ≠ some '*' := by
        intro h; exact hstar ((endsWithStar_iff p).mpr h)
      simp [hstar, this]

/-! ## Server dispatch engine: commands and queries

`handleMessage` (server.ts lines 126-234) classifies the decoded message
and runs the command branch (129-175) or the query branch (177-219).
Payloads (`data`, `result`, `row`) are opaque JSON values, modelled by a
type parameter `V`. -/

/-- Inbound command wire message `{cmd, cid, data[, ack]}` (protocol.ts
`Cmd`).  The payload is irrelevant to dispatch and omitted; `ack` is the
truthiness of the optional `ack` field read by `if (msg.ack)`. -/
structure CmdMsg where
  cmd : String
  cid : String
  ack : Bool
deriving DecidableEq

/-- Inbound query wire message `{q, id[, params]}` (protocol.ts
`QueryMsg`); params are irrelevant to dispatch and omitted. -/
structure QueryMsg where
  q : String
  id : Nat
deriving DecidableEq

/-- server.ts `AuthConfig`: the `verify` hook runs at upgrade time (it
determines the session's `userId`, a model input here); `public` is the
allow-list of names exempt from the auth gate. -/
structure AuthConfig where
  publicNames : List String
deriving DecidableEq

/-- Outbound server wire messages relevant to dispatch:
`{cid, result}`, `{cid, err}`, `{id, row}`, `{id}` (end), `{id, err}`,
`{ev, data}`. -/
inductive Out (V : Type) where
  | cmdResult (cid : String) (result : V)
  | cmdErr (cid : String) (err : String)
  | row (id : Nat) (r : V)
  | endMsg (id : Nat)
  | queryErr (id : Nat) (err : String)
  | event (ev : String) (data : V)
deriving DecidableEq

/-- server.ts lines 118-120: `options.auth?.public.includes(name) ?? false`. -/
def isPublic (auth : Option AuthConfig) (name : String) : Bool :=
  match auth with
  | some a => a.publicNames.contains name
  | none => false

/-- server.ts lines 122-124: `options.auth !== undefined && !isPublic(name)`. -/
def requiresAuth (auth : Option AuthConfig) (name : String) : Bool :=
  auth.isSome && !(isPublic auth name)

/-- The observable behaviour of one registered command handler
invocation: its outcome (a returned value, or the error string computed
at the catch site — `e.message` for an `Error`, `"command failed"`
otherwise), and `some u` iff the handler called `ctx.setUserId(u)`
before terminating. -/
structure CmdEffect (V : Type) where
  outcome : Except String V
  setUser : Option Nat

/-- The observable behaviour of one registered query handler invocation:
the rows it yields in order, then `none` if it completes or
`some e` if it then throws (with `e` the string computed at the catch
site). -/
structure QueryEffect (V : Type) where
  rows : List V
  failure : Option String
deriving DecidableEq

/-- server.ts lines 129-175, the command branch of `handleMessage`:
unknown-name check, auth gate, then handler invocation with the result
acknowledged only under `msg.ack`; a thrown error is always reported.
Returns (messages sent on this socket, session userId afterwards,
whether the handler was invoked). -/
def handleCmd (V : Type) (auth : Option AuthConfig)
    (commandHandlers : String → Option (CmdEffect V))
    (userId : Option Nat) (m : CmdMsg) :
    List (Out V) × Option Nat × Bool :=
  match commandHandlers m.cmd with
  | none => ([Out.cmdErr m.cid ("Unknown command: " ++ m.cmd)], userId, false)
  | some h =>
    if requiresAuth auth m.cmd && userId.isNone then
      ([Out.cmdErr m.cid "Not authenticated"], userId, false)
    else
      let userId1 := match h.setUser with
        | some u => some u
        | none => userId
      match h.outcome with
      | Except.ok result =>
          ((if m.ack then [Out.cmdResult m.cid result] else []), userId1, true)
      | Except.error e => ([Out.cmdErr m.cid e], userId1, true)

/-- server.ts lines 177-219, the query branch of `handleMessage`:
unknown-name check, auth gate, then the `for await` loop sending one
`{id, row}` per yielded row, followed by `{id}` on completion or
`{id, err}` if the handler throws.  Queries never mutate session state
(`QueryContext` carries only `userId`). -/
def handleQuery (V : Type) (auth : Option AuthConfig)
    (queryHandlers : String → Option (QueryEffect V))
    (userId : Option Nat) (m : QueryMsg) : List (Out V) :=
  match queryHandlers m.q with
  | none => [Out.queryErr m.id ("Unknown query: " ++ m.q)]
  | some h =>
    if requiresAuth auth m.q && userId.isNone then
      [Out.queryErr m.id "Not authenticated"]
    else
      h.rows.map (Out.row m.id) ++
        [match h.failure with
          | none => Out.endMsg m.id
          | some e => Out.queryErr m.id e]

/-- **C9.** An inbound command whose name has no registered handler is
answered by exactly one `{cid, err}` message whose text is
`"Unknown command: "` followed by the name, and an unknown query by one
`{id, err}` message with text `"Unknown query: "` followed by the name;
no handler is invoked and the session is untouched (the dispatch path
contains no connection-closing operation). -/
theorem unknown_name_replies (V : Type) (auth : Option AuthConfig)
    (commandHandlers : String → Option (CmdEffect V))
    (queryHandlers : String → Option (QueryEffect V))
    (userId : Option Nat) (cm : CmdMsg) (qm : QueryMsg)
    (hc : commandHandlers cm.cmd = none)
    (hq : queryHandlers qm.q = none) :
    handleCmd V auth commandHandlers userId cm =
        ([Out.cmdErr cm.cid ("Unknown command: " ++ cm.cmd)], userId, false) ∧
      handleQuery V auth queryHandlers userId qm =
        [Out.queryErr qm.id ("Unknown query: " ++ qm.q)] := by
  constructor
  · unfold handleCmd; rw [hc]
  · unfold handleQuery; rw [hq]

/-- Witness for `unknown_name_replies` at a concrete input: empty
registries, the command `foo.bar` and the query `foo.baz`. -/
theorem unknown_name_replies_witness :
    handleCmd Nat none (fun _ => none) none ⟨"foo.bar", "c1", false⟩ =
        ([Out.cmdErr "c1" "Unknown command: foo.bar"], none, false) ∧
      handleQuery Nat none (fun _ => none) none ⟨"foo.baz", 3⟩ =
        [Out.queryErr 3 "Unknown query: foo.baz"] := by
  have h := unknown_name_replies Nat none (fun _ => none) (fun _ => none)
    none ⟨"foo.bar", "c1", false⟩ ⟨"foo.baz", 3⟩ rfl rfl
  simpa using h

/-- **C4.** For a command dispatched to a registered handler (name
registered, auth gate passed): the server sends a `{cid, result}`
message iff the inbound message carried the `ack` flag and the handler
completed without throwing; if the handler throws, the server sends a
`{cid, err}` message whether or not `ack` was set. -/
theorem ack_gated_result (V : Type) (auth : Option AuthConfig)
    (commandHandlers : String → Option (CmdEffect V))
    (userId : Option Nat) (m : CmdMsg) (h : CmdEffect V)
    (hreg : commandHandlers m.cmd = some h)
    (hauth : (requiresAuth auth m.cmd && userId.isNone) = false) :
    ((∃ v, Out.cmdResult m.cid v ∈ (handleCmd V auth commandHandlers userId m).1) ↔
        (m.ack = true ∧ ∃ v, h.outcome = Except.ok v)) ∧
      (∀ e, h.outcome = Except.error e →
        (handleCmd V auth commandHandlers userId m).1 = [Out.cmdErr m.cid e]) := by
  unfold handleCmd
  rw [hreg]
  simp only [hauth, if_false]
  constructor
  · cases hout : h.outcome with
    | ok v =>
      cases hack : m.ack with
      | true => simp [hout, hack]
      | false => simp [hout, hack]
    | error e => simp [hout]
  · intro e he
    simp [he]

/-- Witness for `ack_gated_result`: a handler for `sum.create`
returning the value 7, invoked with `ack` set, yields the
`{cid, result}` reply; a handler for `sum.fail` throwing `boom`,
invoked *without* `ack`, still yields the `{cid, err}` reply. -/
theorem ack_gated_result_witness :
    (∃ v, Out.cmdResult "c7" (v : Nat) ∈
        (handleCmd Nat none
          (fun n => if n = "sum.create" then
            some ⟨Except.ok 7, none⟩ else none)
          (some 1) ⟨"sum.create", "c7", true⟩).1) ∧
      (handleCmd Nat none
          (fun n => if n = "sum.fail" then
            some ⟨Except.error "boom", none⟩ else none)
          (some 1) ⟨"sum.fail", "c8", false⟩).1 = [Out.cmdErr "c8" "boom"] := by
  constructor
  · exact (ack_gated_result Nat none
      (fun n => if n = "sum.create" then some ⟨Except.ok 7, none⟩ else none)
      (some 1) ⟨"sum.create", "c7", true⟩ ⟨Except.ok 7, none⟩ (by simp)
      (by simp [requiresAuth])).1.mpr ⟨rfl, 7, rfl⟩
  · exact (ack_gated_result Nat none
      (fun n => if n = "sum.fail" then some ⟨Except.error "boom", none⟩ else none)
      (some 1) ⟨"sum.fail", "c8", false⟩ ⟨Except.error "boom", none⟩ (by simp)
      (by simp [requiresAuth])).2 "boom" rfl

/-- **C8, counterexample.** The claim asserts that every inbound command
whose name is not on the allow-list, on an unauthenticated session with
auth configured, is answered with a "Not authenticated" error.  The code
checks for an unknown name first (server.ts line 132 before line 143):
with auth configured, an empty allow-list and an empty registry, the
unauthenticated command `foo.bar` is answered with the unknown-command
error, and no "Not authenticated" message is sent. -/
theorem auth_gate_counterexample :
    handleCmd Nat (some ⟨[]⟩) (fun _ => none) none ⟨"foo.bar", "c1", false⟩ =
        ([Out.cmdErr "c1" "Unknown command: foo.bar"], none, false) ∧
      Out.cmdErr "c1" "Not authenticated" ∉
        (handleCmd Nat (some ⟨[]⟩) (fun _ => none) none ⟨"foo.bar", "c1", false⟩).1 := by
  constructor
  · rfl
  · intro hmem
    simp [handleCmd] at hmem

/-- **C8, amended.** For every inbound command or query whose name has a
*registered handler* but is not on the allow-list, arriving on an
unauthenticated session while auth is configured, the server answers
with exactly one "Not authenticated" error carrying the request's
correlation id (command) or numeric id (query), does not invoke the
handler, and leaves the session's identity unchanged (the rejection path
touches no session or subscription state); a registered name on the
allow-list is dispatched even for an unauthenticated session.  (A name
with no registered handler is instead answered with the unknown-name
error: that check precedes the auth gate.) -/
theorem auth_gate_amended (V : Type) (auth : Option AuthConfig) :
    (∀ (commandHandlers : String → Option (CmdEffect V)) (m : CmdMsg) h,
      commandHandlers m.cmd = some h → requiresAuth auth m.cmd = true →
      handleCmd V auth commandHandlers none m =
        ([Out.cmdErr m.cid "Not authenticated"], none, false)) ∧
    (∀ (queryHandlers : String → Option (QueryEffect V)) (qm : QueryMsg) h,
      queryHandlers qm.q = some h → requiresAuth auth qm.q = true →
      handleQuery V auth queryHandlers none qm =
        [Out.queryErr qm.id "Not authenticated"]) ∧
    (∀ (commandHandlers : String → Option (CmdEffect V)) (m : CmdMsg) h,
      commandHandlers m.cmd = some h → isPublic auth m.cmd = true →
      (handleCmd V auth commandHandlers none m).2.2 = true) ∧
    (∀ (queryHandlers : String → Option (QueryEffect V)) (qm : QueryMsg) h,
      queryHandlers qm.q = some h → isPublic auth qm.q = true →
      handleQuery V auth queryHandlers none qm =
        h.rows.map (Out.row qm.id) ++
          [match h.failure with
            | none => Out.endMsg qm.id
            | some e => Out.queryErr qm.id e]) := by
  refine ⟨?_, ?_, ?_, ?_⟩
  · intro ch m h hreg hra
    unfold handleCmd
    rw [hreg]
    simp [hra]
  · intro qh qm h hreg hra
    unfold handleQuery
    rw [hreg]
    simp [hra]
  · intro ch m h hreg hpub
    have hra : requiresAuth auth m.cmd = false := by
      unfold requiresAuth
      simp [hpub]
    unfold handleCmd
    rw [hreg]
    simp only [hra, Bool.false_and, if_false]
    cases h.outcome <;> simp
  · intro qh qm h hreg hpub
    have hra : requiresAuth auth qm.q = false := by
      unfold requiresAuth
      simp [hpub]
    unfold handleQuery
    rw [hreg]
    simp [hra]

/-- Witness for `auth_gate_amended`: auth configured with allow-list
`["public.ping"]`; the registered private command `test.echo` and
private query `test.numbers` are rejected for an unauthenticated
session, while the registered public command `public.ping` and public
query... (here: `public.ping` as a query name) are dispatched. -/
theorem auth_gate_amended_witness :
    (handleCmd Nat (some ⟨["public.ping"]⟩)
        (fun n => if n = "test.echo" then some ⟨Except.ok 1, none⟩ else
          if n = "public.ping" then some ⟨Except.ok 2, none⟩ else none)
        none ⟨"test.echo", "c1", true⟩ =
      ([Out.cmdErr "c1" "Not authenticated"], none, false)) ∧
    (handleQuery Nat (some ⟨["public.ping"]⟩)
        (fun n => if n = "test.numbers" then some ⟨[5], none⟩ else
          if n = "public.ping" then some ⟨[9], none⟩ else none)
        none ⟨"test.numbers", 4⟩ =
      [Out.queryErr 4 "Not authenticated"]) ∧
    ((handleCmd Nat (some ⟨["public.ping"]⟩)
        (fun n => if n = "test.echo" then some ⟨Except.ok 1, none⟩ else
          if n = "public.ping" then some ⟨Except.ok 2, none⟩ else none)
        none ⟨"public.ping", "c2", true⟩).2.2 = true) ∧
    (handleQuery Nat (some ⟨["public.ping"]⟩)
        (fun n => if n = "test.numbers" then some ⟨[5], none⟩ else
          if n = "public.ping" then some ⟨[9], none⟩ else none)
        none ⟨"public.ping", 6⟩ =
      [Out.row 6 9, Out.endMsg 6]) := by
  have h := auth_gate_amended Nat (some ⟨["public.ping"]⟩)
  refine ⟨?_, ?_, ?_, ?_⟩
  · exact h.1 _ ⟨"test.echo", "c1", true⟩ ⟨Except.ok 1, none⟩ (by simp)
      (by simp [requiresAuth, isPublic])
  · exact h.2.1 _ ⟨"test.numbers", 4⟩ ⟨[5], none⟩ (by simp)
      (by simp [requiresAuth, isPublic])
  · exact h.2.2.1 _ ⟨"public.ping", "c2", true⟩ ⟨Except.ok 2, none⟩ (by simp)
      (by simp [isPublic])
  · have := h.2.2.2
      (fun n => if n = "test.numbers" then some ⟨[5], none⟩ else
        if n = "public.ping" then some ⟨[9], none⟩ else none)
      ⟨"public.ping", 6⟩ ⟨[9], none⟩ (by simp) (by simp [isPublic])
    simpa using this

/-! ## Client command path

client.ts lines 277-293 (`cmd`) and the `onmessage` routing for
command replies (lines 203-219). -/

/-- client.ts `cmd(name, data, callbacks?)`: a fresh correlation id is
generated; if callbacks are supplied an entry is registered in
`cmdListeners`; the outbound message is `send({ cmd: name, cid: id,
data })` — it carries *no* `ack` field, so the server's `if (msg.ack)`
reads it as falsy, modelled as `ack := false`.  Returns the outbound
message and whether a listener entry was registered. -/
def clientCmd (name freshCid : String) (hasCallbacks : Bool) :
    CmdMsg × Bool :=
  (⟨name, freshCid, false⟩, hasCallbacks)

/-- A callback invocation observed by the caller of `cmd`. -/
inductive Fire (V : Type) where
  | success (v : V)
  | failure (e : String)
deriving DecidableEq

/-- client.ts `onmessage` lines 203-219: a `{cid, result}` message fires
`onSuccess` of the listener registered under that cid, a `{cid, err}`
message fires `onError`; other messages do not touch `cmdListeners`. -/
def cmdReplyFire (V : Type) (cidv : String) : Out V → Option (Fire V)
  | Out.cmdResult c v => if c = cidv then some (Fire.success v) else none
  | Out.cmdErr c e => if c = cidv then some (Fire.failure e) else none
  | _ => none

/-- The callbacks fired at the client for correlation id `cidv`, given
whether a listener was registered and the list of messages the server
sent back on this connection. -/
def clientCmdFires (V : Type) (registered : Bool) (cidv : String)
    (replies : List (Out V)) : List (Fire V) :=
  if registered then replies.filterMap (cmdReplyFire V cidv) else []

/-- **C2 (code bug).** Round trip of `cmd("test.echo", ..., {onSuccess,
onError})` against a registered handler that succeeds with value 7:
the outbound message carries `ack = false` (client.ts line 292 sends
`{cmd, cid, data}` without the `ack` field), so the server's
`if (msg.ack)` branch (server.ts line 164) skips the `{cid, result}`
reply: the server sends nothing at all, and neither `onSuccess` nor
`onError` ever fires — zero callbacks instead of exactly one.
CHANGELOG 0.1.7 ("Client automatically sets `ack: true` when callbacks
are provided") and integration.test.ts ("command with callbacks
receives response") require `onSuccess` to fire here. -/
theorem cmd_callbacks_never_fire_on_success :
    (clientCmd "test.echo" "c1" true).1.ack = false ∧
      (handleCmd Nat none
          (fun n => if n = "test.echo" then some ⟨Except.ok 7, none⟩ else none)
          (some 42) (clientCmd "test.echo" "c1" true).1).1 = [] ∧
      clientCmdFires Nat (clientCmd "test.echo" "c1" true).2 "c1"
          (handleCmd Nat none
            (fun n => if n = "test.echo" then some ⟨Except.ok 7, none⟩ else none)
            (some 42) (clientCmd "test.echo" "c1" true).1).1 = [] := by
  refine ⟨rfl, ?_, ?_⟩
  · simp [clientCmd, handleCmd, requiresAuth]
  · simp [clientCmd, handleCmd, clientCmdFires, requiresAuth]

/-! ## Client query iterator

client.ts lines 295-341 (`query`): the returned object's
`Symbol.asyncIterator` body registers an entry in `queryListeners`
holding a row buffer, a `done` flag and an `error` slot, sends
`{q, id, params}`, and returns a pull-based iterator whose `next()`
waits while the buffer is empty and neither `done` nor `error` is set,
then checks `error` first, then the buffer (FIFO `shift`), then reports
done.  Inbound messages mutate the listener state (`onRow` appends,
`onEnd` sets `done`, `onError` sets `error`).

An execution interleaves message deliveries with pull attempts in any
order; `Act` schedules them.  A pull attempt that finds the wait
condition true suspends without output and is retried (this models the
`while`/`await` loop: between any two checks, any number of messages
may be processed). -/

/-- Inbound stream messages for one query id, as routed by the client
`onmessage` handler: `{id, row}`, `{id}` (end), `{id, err}`. -/
inductive QMsg (ρ : Type) where
  | row (r : ρ)
  | endq
  | fail (e : String)
deriving DecidableEq

/-- The listener state captured by the `Symbol.asyncIterator` body:
`buffer`, `done`, `error`. -/
structure IterSt (ρ : Type) where
  buffer : List ρ
  done : Bool
  error : Option String
deriving DecidableEq

/-- Fresh state at `Symbol.asyncIterator` invocation: empty buffer,
`done = false`, `error = null`. -/
def iterInit (ρ : Type) : IterSt ρ := ⟨[], false, none⟩

/-- The `queryListeners` callbacks (client.ts lines 308-321): `onRow`
pushes onto the buffer, `onEnd` sets `done`, `onError` records the
error string. -/
def deliverMsg {ρ : Type} (s : IterSt ρ) : QMsg ρ → IterSt ρ
  | QMsg.row r => { s with buffer := s.buffer ++ [r] }
  | QMsg.endq => { s with done := true }
  | QMsg.fail e => { s with error := some e }

/-- The outcome of one `next()` call: still waiting (the loop suspends),
a row value, clean completion, or a thrown error. -/
inductive PullRes (ρ : Type) where
  | waiting
  | row (r : ρ)
  | stop
  | fail (e : String)
deriving DecidableEq

/-- client.ts lines 326-337, `next()`: wait while the buffer is empty
and neither `done` nor `error` is set; then `if (error) throw` (checked
before the buffer!), then `buffer.shift()`, else report done. -/
def pull {ρ : Type} (s : IterSt ρ) : PullRes ρ × IterSt ρ :=
  if s.buffer.isEmpty = true ∧ s.done = false ∧ s.error = none then
    (PullRes.waiting, s)
  else
    match s.error with
    | some e => (PullRes.fail e, s)
    | none =>
      match s.buffer with
      | r :: rest => (PullRes.row r, ⟨rest, s.done, s.error⟩)
      | [] => (PullRes.stop, s)

/-- A scheduling step: one inbound message is processed, or the consumer
attempts a pull. -/
inductive Act where
  | deliver
  | pull
deriving DecidableEq

/-- Run a schedule: `deliver` processes the next pending inbound message
(no-op when none remain), `pull` attempts a `next()`; a waiting attempt
produces no output.  Returns the final listener state and the sequence
of completed pull results the consumer observed. -/
def run {ρ : Type} : List Act → IterSt ρ → List (QMsg ρ) →
    IterSt ρ × List (PullRes ρ)
  | [], s, _ => (s, [])
  | Act.deliver :: acts, s, [] => run acts s []
  | Act.deliver :: acts, s, m :: rest => run acts (deliverMsg s m) rest
  | Act.pull :: acts, s, pending =>
    match pull s with
    | (PullRes.waiting, s1) => run acts s1 pending
    | (PullRes.row r, s1) =>
      let t := run acts s1 pending
      (t.1, PullRes.row r :: t.2)
    | (PullRes.stop, s1) =>
      let t := run acts s1 pending
      (t.1, PullRes.stop :: t.2)
    | (PullRes.fail e, s1) =>
      let t := run acts s1 pending
      (t.1, PullRes.fail e :: t.2)

/-- A terminal pull result ends the consumer's `for await` loop. -/
def isTerm {ρ : Type} : PullRes ρ → Bool
  | PullRes.stop => true
  | PullRes.fail _ => true
  | _ => false

/-- What the consumer observes: the pull results up to and including the
first terminal one. -/
def untilTerm {ρ : Type} : List (PullRes ρ) → List (PullRes ρ)
  | [] => []
  | r :: rs => if isTerm r then [r] else r :: untilTerm rs

lemma pull_wait {ρ : Type} (s : IterSt ρ) (hb : s.buffer = [])
    (hd : s.done = false) (he : s.error = none) :
    pull s = (PullRes.waiting, s) := by
  unfold pull
  rw [if_pos]
  exact ⟨by simp [hb], hd, he⟩

lemma pull_fail {ρ : Type} (s : IterSt ρ) (e : String)
    (he : s.error = some e) : pull s = (PullRes.fail e, s) := by
  unfold pull
  rw [if_neg, he]
  intro hcon
  rw [he] at hcon
  exact Option.noConfusion hcon.2.2

lemma pull_row {ρ : Type} (s : IterSt ρ) (r : ρ) (rest : List ρ)
    (hb : s.buffer = r :: rest) (he : s.error = none) :
    pull s = (PullRes.row r, ⟨rest, s.done, s.error⟩) := by
  unfold pull
  rw [if_neg, he, hb]
  intro hcon
  rw [hb] at hcon
  simp at hcon

lemma pull_stop {ρ : Type} (s : IterSt ρ) (hb : s.buffer = [])
    (hd : s.done = true) (he : s.error = none) :
    pull s = (PullRes.stop, s) := by
  unfold pull
  rw [if_neg, he, hb]
  intro hcon
  rw [hd] at hcon
  exact Bool.noConfusion hcon.2.1

lemma run_pull_wait {ρ : Type} (acts : List Act) (s s1 : IterSt ρ)
    (pending : List (QMsg ρ)) (h : pull s = (PullRes.waiting, s1)) :
    run (Act.pull :: acts) s pending = run acts s1 pending := by
  simp only [run, h]

lemma run_pull_row {ρ : Type} (acts : List Act) (s s1 : IterSt ρ) (r : ρ)
    (pending : List (QMsg ρ)) (h : pull s = (PullRes.row r, s1)) :
    run (Act.pull :: acts) s pending =
      ((run acts s1 pending).1, PullRes.row r :: (run acts s1 pending).2) := by
  simp only [run, h]

lemma run_pull_stop {ρ : Type} (acts : List Act) (s s1 : IterSt ρ)
    (pending : List (QMsg ρ)) (h : pull s = (PullRes.stop, s1)) :
    run (Act.pull :: acts) s pending =
      ((run acts s1 pending).1, PullRes.stop :: (run acts s1 pending).2) := by
  simp only [run, h]

lemma run_pull_fail {ρ : Type} (acts : List Act) (s s1 : IterSt ρ) (e : String)
    (pending : List (QMsg ρ)) (h : pull s = (PullRes.fail e, s1)) :
    run (Act.pull :: acts) s pending =
      ((run acts s1 pending).1, PullRes.fail e :: (run acts s1 pending).2) := by
  simp only [run, h]

/-- Invariant along any execution of a stream that ends with a clean
end message: the error slot is never set; either the end message is
still pending and the rows seen so far (emitted to the consumer, then
buffered) are a prefix of the handler's rows with the rest pending, or
the end has been processed and emitted-plus-buffer is the whole row
list. -/
def InvS {ρ : Type} (rows : List ρ) (s : IterSt ρ) (pending : List (QMsg ρ))
    (emitted : List ρ) : Prop :=
  s.error = none ∧
  ((s.done = false ∧ ∃ fut, rows = emitted ++ s.buffer ++ fut ∧
      pending = fut.map QMsg.row ++ [QMsg.endq]) ∨
   (s.done = true ∧ pending = [] ∧ rows = emitted ++ s.buffer))

lemma run_success {ρ : Type} (rows : List ρ) :
    ∀ (acts : List Act) (s : IterSt ρ) (pending : List (QMsg ρ))
      (emitted : List ρ),
    InvS rows s pending emitted →
    (run acts s pending).2.any isTerm = true →
    emitted.map PullRes.row ++ untilTerm (run acts s pending).2 =
      rows.map PullRes.row ++ [PullRes.stop] := by
  intro acts
  induction acts with
  | nil =>
    intro s pending emitted _ hterm
    simp [run] at hterm
  | cons a acts ih =>
    intro s pending emitted hinv hterm
    obtain ⟨he, hcase⟩ := hinv
    cases a with
    | deliver =>
      rcases hcase with ⟨hd, fut, hrows, hpend⟩ | ⟨hd, hpend, hrows⟩
      · subst hpend
        cases fut with
        | nil =>
          simp only [List.map_nil, List.nil_append, run] at hterm ⊢
          refine ih (deliverMsg s QMsg.endq) [] emitted ⟨?_, Or.inr ⟨?_, rfl, ?_⟩⟩ hterm
          · simpa [deliverMsg] using he
          · simp [deliverMsg]
          · simpa using hrows
        | cons f fut =>
          simp only [List.map_cons, List.cons_append, run] at hterm ⊢
          refine ih (deliverMsg s (QMsg.row f)) _ emitted
            ⟨?_, Or.inl ⟨?_, fut, ?_, rfl⟩⟩ hterm
          · simpa [deliverMsg] using he
          · simpa [deliverMsg] using hd
          · simp only [deliverMsg]
            rw [hrows]
            simp
      · subst hpend
        simp only [run] at hterm ⊢
        exact ih s [] emitted ⟨he, Or.inr ⟨hd, rfl, hrows⟩⟩ hterm
    | pull =>
      cases hb : s.buffer with
      | nil =>
        cases hdone : s.done with
        | false =>
          rw [run_pull_wait acts s s pending (pull_wait s hb hdone he)] at hterm ⊢
          refine ih s pending emitted ⟨he, ?_⟩ hterm
          rcases hcase with ⟨_, fut, hrows, hpend⟩ | ⟨hd, hpend, hrows⟩
          · exact Or.inl ⟨hdone, fut, hrows, hpend⟩
          · rw [hdone] at hd
            exact Bool.noConfusion hd
        | true =>
          rw [run_pull_stop acts s s pending (pull_stop s hb hdone he)]
          rcases hcase with ⟨hd, _, _, _⟩ | ⟨_, _, hrows⟩
          · rw [hdone] at hd
            exact Bool.noConfusion hd
          · rw [hrows, hb]
            simp [untilTerm, isTerm]
      | cons r rest =>
        rw [run_pull_row acts s ⟨rest, s.done, s.error⟩ r pending
          (pull_row s r rest hb he)] at hterm ⊢
        simp only [List.any_cons, isTerm, Bool.false_or] at hterm
        have step : InvS rows ⟨rest, s.done, s.error⟩ pending (emitted ++ [r]) := by
          refine ⟨he, ?_⟩
          rcases hcase with ⟨hd, fut, hrows, hpend⟩ | ⟨hd, hpend, hrows⟩
          · refine Or.inl ⟨hd, fut, ?_, hpend⟩
            rw [hrows, hb]
            simp
          · refine Or.inr ⟨hd, hpend, ?_⟩
            rw [hrows, hb]
            simp
        have hrec := ih ⟨rest, s.done, s.error⟩ pending (emitted ++ [r]) step hterm
        rw [untilTerm, if_neg (by simp [isTerm])]
        rw [List.map_append] at hrec
        simpa using hrec

/-- Invariant along any execution of a stream that ends with an error
message: `done` is never set; either the error message is still pending
with the remaining rows, or it has been processed into the error slot
and emitted-plus-buffer is the whole row list. -/
def InvF {ρ : Type} (rows : List ρ) (e : String) (s : IterSt ρ)
    (pending : List (QMsg ρ)) (emitted : List ρ) : Prop :=
  s.done = false ∧
  ((s.error = none ∧ ∃ fut, rows = emitted ++ s.buffer ++ fut ∧
      pending = fut.map QMsg.row ++ [QMsg.fail e]) ∨
   (s.error = some e ∧ pending = [] ∧ rows = emitted ++ s.buffer))

lemma run_failure {ρ : Type} (rows : List ρ) (e : String) :
    ∀ (acts : List Act) (s : IterSt ρ) (pending : List (QMsg ρ))
      (emitted : List ρ),
    InvF rows e s pending emitted →
    (run acts s pending).2.any isTerm = true →
    ∃ pre, pre <+: rows ∧
      emitted.map PullRes.row ++ untilTerm (run acts s pending).2 =
        pre.map PullRes.row ++ [PullRes.fail e] := by
  intro acts
  induction acts with
  | nil =>
    intro s pending emitted _ hterm
    simp [run] at hterm
  | cons a acts ih =>
    intro s pending emitted hinv hterm
    obtain ⟨hd, hcase⟩ := hinv
    cases a with
    | deliver =>
      rcases hcase with ⟨he, fut, hrows, hpend⟩ | ⟨he, hpend, hrows⟩
      · subst hpend
        cases fut with
        | nil =>
          simp only [List.map_nil, List.nil_append, run] at hterm ⊢
          refine ih (deliverMsg s (QMsg.fail e)) [] emitted
            ⟨?_, Or.inr ⟨?_, rfl, ?_⟩⟩ hterm
          · simpa [deliverMsg] using hd
          · simp [deliverMsg]
          · simpa using hrows
        | cons f fut =>
          simp only [List.map_cons, List.cons_append, run] at hterm ⊢
          refine ih (deliverMsg s (QMsg.row f)) _ emitted
            ⟨?_, Or.inl ⟨?_, fut, ?_, rfl⟩⟩ hterm
          · simpa [deliverMsg] using hd
          · simpa [deliverMsg] using he
          · simp only [deliverMsg]
            rw [hrows]
            simp
      · subst hpend
        simp only [run] at hterm ⊢
        exact ih s [] emitted ⟨hd, Or.inr ⟨he, rfl, hrows⟩⟩ hterm
    | pull =>
      rcases hcase with ⟨he, fut, hrows, hpend⟩ | ⟨he, hpend, hrows⟩
      · cases hb : s.buffer with
        | nil =>
          rw [run_pull_wait acts s s pending (pull_wait s hb hd he)] at hterm ⊢
          exact ih s pending emitted ⟨hd, Or.inl ⟨he, fut, hrows, hpend⟩⟩ hterm
        | cons r rest =>
          rw [run_pull_row acts s ⟨rest, s.done, s.error⟩ r pending
            (pull_row s r rest hb he)] at hterm ⊢
          simp only [List.any_cons, isTerm, Bool.false_or] at hterm
          have step : InvF rows e ⟨rest, s.done, s.error⟩ pending (emitted ++ [r]) := by
            refine ⟨hd, Or.inl ⟨he, fut, ?_, hpend⟩⟩
            rw [hrows, hb]
            simp
          obtain ⟨pre, hpre, hrec⟩ :=
            ih ⟨rest, s.done, s.error⟩ pending (emitted ++ [r]) step hterm
          refine ⟨pre, hpre, ?_⟩
          rw [untilTerm, if_neg (by simp [isTerm])]
          rw [List.map_append] at hrec
          simpa using hrec
      · rw [run_pull_fail acts s s e pending (pull_fail s e he)]
        refine ⟨emitted, ⟨s.buffer, hrows.symm⟩, ?_⟩
        simp [untilTerm, isTerm]

/-- In an execution in which no end message is pending and `done` is not
set, the consumer never observes a clean stop. -/
lemma run_noStop {ρ : Type} :
    ∀ (acts : List Act) (s : IterSt ρ) (pending : List (QMsg ρ)),
    s.done = false → (∀ m ∈ pending, m ≠ QMsg.endq) →
    PullRes.stop ∉ (run acts s pending).2 := by
  intro acts
  induction acts with
  | nil =>
    intro s pending _ _
    simp [run]
  | cons a acts ih =>
    intro s pending hd hpend
    cases a with
    | deliver =>
      cases pending with
      | nil =>
        simp only [run]
        exact ih s [] hd (by simp)
      | cons m rest =>
        simp only [run]
        have hm : m ≠ QMsg.endq := hpend m (by simp)
        have hrest : ∀ x ∈ rest, x ≠ QMsg.endq := fun x hx => hpend x (by simp [hx])
        refine ih (deliverMsg s m) rest ?_ hrest
        cases m with
        | row r => simpa [deliverMsg] using hd
        | endq => exact absurd rfl hm
        | fail e => simpa [deliverMsg] using hd
    | pull =>
      cases he : s.error with
      | some e =>
        rw [run_pull_fail acts s s e pending (pull_fail s e he)]
        have := ih s pending hd hpend
        simp only [List.mem_cons]
        rintro (hcon | hcon)
        · exact PullRes.noConfusion hcon
        · exact this hcon
      | none =>
        cases hb : s.buffer with
        | nil =>
          rw [run_pull_wait acts s s pending (pull_wait s hb hd he)]
          exact ih s pending hd hpend
        | cons r rest =>
          rw [run_pull_row acts s ⟨rest, s.done, s.error⟩ r pending
            (pull_row s r rest hb he)]
          have := ih ⟨rest, s.done, s.error⟩ pending (by simpa using hd) hpend
          simp only [List.mem_cons]
          rintro (hcon | hcon)
          · exact PullRes.noConfusion hcon
          · exact this hcon

/-- client.ts `onmessage` routing for stream messages (lines 221-242):
`{id, row}` → `onRow`, `{id}` → `onEnd`, `{id, err}` → `onError`, keyed
by `queryListeners.get(msg.id)`; messages for other ids or of other
kinds do not reach this query's listener. -/
def streamFor (V : Type) (id : Nat) : Out V → Option (QMsg V)
  | Out.row i r => if i = id then some (QMsg.row r) else none
  | Out.endMsg i => if i = id then some QMsg.endq else none
  | Out.queryErr i e => if i = id then some (QMsg.fail e) else none
  | _ => none

lemma streamFor_end (V : Type) (id : Nat) (rows : List V) :
    (rows.map (Out.row id) ++ [Out.endMsg id]).filterMap (streamFor V id) =
      rows.map QMsg.row ++ [QMsg.endq] := by
  rw [List.filterMap_append, List.filterMap_map]
  congr 1
  · have : (streamFor V id ∘ Out.row id) = some ∘ QMsg.row := by
      funext r
      simp [streamFor]
    rw [this, List.filterMap_eq_map]
  · simp [streamFor]

lemma streamFor_fail (V : Type) (id : Nat) (rows : List V) (e : String) :
    (rows.map (Out.row id) ++ [Out.queryErr id e]).filterMap (streamFor V id) =
      rows.map QMsg.row ++ [QMsg.fail e] := by
  rw [List.filterMap_append, List.filterMap_map]
  congr 1
  · have : (streamFor V id ∘ Out.row id) = some ∘ QMsg.row := by
      funext r
      simp [streamFor]
    rw [this, List.filterMap_eq_map]
  · simp [streamFor]

/-- One traversal of the sequence object returned by
`query(name, params)` (client.ts lines 295-341), end to end: the
`Symbol.asyncIterator` body initializes fresh listener state, registers
it under the object's id and sends `{q, id, params}`; the server's
query branch answers with the handler's row stream for that id; `acts`
schedules inbound-message processing against the consumer's pulls.
Each call of `Symbol.asyncIterator` on the same object re-executes this
body — the server keeps no per-id history and the listener entry is
re-registered — so every traversal, first or later, runs this same
protocol round. -/
def queryTraversal (V : Type) (auth : Option AuthConfig)
    (queryHandlers : String → Option (QueryEffect V)) (userId : Option Nat)
    (qname : String) (id : Nat) (acts : List Act) :
    IterSt V × List (PullRes V) :=
  run acts (iterInit V)
    ((handleQuery V auth queryHandlers userId ⟨qname, id⟩).filterMap
      (streamFor V id))

/-- **C1.** A registered query handler that yields its rows and then
completes: under every schedule in which the consumer keeps pulling to a
terminal result, the consumer observes exactly the handler's rows, in
emission order, followed by a clean stop — whatever the interleaving of
message arrival and pulls (buffered rows are drained in FIFO order
before done is reported). -/
theorem query_stream_success (V : Type) (auth : Option AuthConfig)
    (queryHandlers : String → Option (QueryEffect V)) (userId : Option Nat)
    (qname : String) (id : Nat) (rows : List V) (acts : List Act)
    (hreg : queryHandlers qname = some ⟨rows, none⟩)
    (hauth : (requiresAuth auth qname && userId.isNone) = false)
    (hterm : (queryTraversal V auth queryHandlers userId qname id acts).2.any
      isTerm = true) :
    untilTerm (queryTraversal V auth queryHandlers userId qname id acts).2 =
      rows.map PullRes.row ++ [PullRes.stop] := by
  have hq : (handleQuery V auth queryHandlers userId ⟨qname, id⟩).filterMap
      (streamFor V id) = rows.map QMsg.row ++ [QMsg.endq] := by
    unfold handleQuery
    rw [hreg]
    simp only [hauth, if_false]
    exact streamFor_end V id rows
  unfold queryTraversal at hterm ⊢
  rw [hq] at hterm ⊢
  have := run_success rows acts (iterInit V) (rows.map QMsg.row ++ [QMsg.endq])
    [] ⟨rfl, Or.inl ⟨rfl, rows, by simp [iterInit], rfl⟩⟩ hterm
  simpa using this

/-- Witness for `query_stream_success`: a handler yielding `[10, 20]`
then completing, consumed with an alternating deliver/pull schedule,
observes `[row 10, row 20, stop]`. -/
theorem query_stream_success_witness :
    ((queryTraversal Nat none
        (fun n => if n = "nums" then some ⟨[10, 20], none⟩ else none)
        none "nums" 1
        [Act.deliver, Act.pull, Act.deliver, Act.pull, Act.deliver,
          Act.pull]).2.any isTerm = true) ∧
      untilTerm (queryTraversal Nat none
          (fun n => if n = "nums" then some ⟨[10, 20], none⟩ else none)
          none "nums" 1
          [Act.deliver, Act.pull, Act.deliver, Act.pull, Act.deliver,
            Act.pull]).2 =
        [PullRes.row 10, PullRes.row 20, PullRes.stop] :=
  ⟨by decide,
    query_stream_success Nat none
      (fun n => if n = "nums" then some ⟨[10, 20], none⟩ else none)
      none "nums" 1 [10, 20]
      [Act.deliver, Act.pull, Act.deliver, Act.pull, Act.deliver, Act.pull]
      (by decide) (by decide) (by decide)⟩

/-- **C3, counterexample.** The claim asserts that a consumer of a
query whose handler yields M rows then throws receives all M rows before
the failure "regardless of how slowly the consumer pulls relative to
message arrival".  Against a handler that yields one row and then throws
`boom`, a consumer whose first pull happens after both messages have
arrived observes only the failure: `next()` checks `error` before the
buffer (client.ts line 333 before 334), so the buffered row is never
delivered — the traversal's outputs are `[fail "boom"]`, with the row
still sitting in the buffer. -/
theorem query_failure_counterexample :
    queryTraversal Nat none
        (fun n => if n = "q1" then some ⟨[1], some "boom"⟩ else none)
        none "q1" 5 [Act.deliver, Act.deliver, Act.pull] =
      (⟨[1], false, some "boom"⟩, [PullRes.fail "boom"]) ∧
      PullRes.row 1 ∉
        (queryTraversal Nat none
          (fun n => if n = "q1" then some ⟨[1], some "boom"⟩ else none)
          none "q1" 5 [Act.deliver, Act.deliver, Act.pull]).2 := by
  exact ⟨by decide, by decide⟩

/-- **C3, amended.** A registered query handler that yields M rows and
then throws: under every schedule reaching a terminal result, the
consumer observes some prefix of the M rows, in emission order, and then
the failure; no clean end is ever delivered.  (The full M rows are
observed when each is pulled before the error message is processed, but
rows still buffered when the error is recorded are discarded, because
`next()` checks the error slot before the buffer.) -/
theorem query_stream_failure (V : Type) (auth : Option AuthConfig)
    (queryHandlers : String → Option (QueryEffect V)) (userId : Option Nat)
    (qname : String) (id : Nat) (rows : List V) (e : String) (acts : List Act)
    (hreg : queryHandlers qname = some ⟨rows, some e⟩)
    (hauth : (requiresAuth auth qname && userId.isNone) = false)
    (hterm : (queryTraversal V auth queryHandlers userId qname id acts).2.any
      isTerm = true) :
    (∃ pre, pre <+: rows ∧
      untilTerm (queryTraversal V auth queryHandlers userId qname id acts).2 =
        pre.map PullRes.row ++ [PullRes.fail e]) ∧
      PullRes.stop ∉
        (queryTraversal V auth queryHandlers userId qname id acts).2 := by
  have hq : (handleQuery V auth queryHandlers userId ⟨qname, id⟩).filterMap
      (streamFor V id) = rows.map QMsg.row ++ [QMsg.fail e] := by
    unfold handleQuery
    rw [hreg]
    simp only [hauth, if_false]
    exact streamFor_fail V id rows e
  unfold queryTraversal at hterm ⊢
  rw [hq] at hterm ⊢
  constructor
  · obtain ⟨pre, hpre, hout⟩ := run_failure rows e acts (iterInit V)
      (rows.map QMsg.row ++ [QMsg.fail e]) []
      ⟨rfl, Or.inl ⟨rfl, rows, by simp [iterInit], rfl⟩⟩ hterm
    exact ⟨pre, hpre, by simpa using hout⟩
  · refine run_noStop acts (iterInit V) (rows.map QMsg.row ++ [QMsg.fail e])
      rfl ?_
    intro m hm
    rcases List.mem_append.mp hm with hm | hm
    · obtain ⟨r, _, hr⟩ := List.mem_map.mp hm
      rw [← hr]
      intro hcon
      exact QMsg.noConfusion hcon
    · rw [List.mem_singleton.mp hm]
      intro hcon
      exact QMsg.noConfusion hcon

/-- Witness for `query_stream_failure`: a handler yielding `[1, 2]` then
throwing `boom`, under an eager schedule, delivers both rows then the
failure, and never a clean stop. -/
theorem query_stream_failure_witness :
    ((queryTraversal Nat none
        (fun n => if n = "qf" then some ⟨[1, 2], some "boom"⟩ else none)
        none "qf" 2
        [Act.deliver, Act.pull, Act.deliver, Act.pull, Act.deliver,
          Act.pull]).2.any isTerm = true) ∧
      (∃ pre, pre <+: [1, 2] ∧
        untilTerm (queryTraversal Nat none
            (fun n => if n = "qf" then some ⟨[1, 2], some "boom"⟩ else none)
            none "qf" 2
            [Act.deliver, Act.pull, Act.deliver, Act.pull, Act.deliver,
              Act.pull]).2 =
          pre.map PullRes.row ++ [PullRes.fail "boom"]) ∧
      PullRes.stop ∉
        (queryTraversal Nat none
          (fun n => if n = "qf" then some ⟨[1, 2], some "boom"⟩ else none)
          none "qf" 2
          [Act.deliver, Act.pull, Act.deliver, Act.pull, Act.deliver,
            Act.pull]).2 :=
  ⟨by decide,
    query_stream_failure Nat none
      (fun n => if n = "qf" then some ⟨[1, 2], some "boom"⟩ else none)
      none "qf" 2 [1, 2] "boom"
      [Act.deliver, Act.pull, Act.deliver, Act.pull, Act.deliver, Act.pull]
      (by decide) (by decide) (by decide)⟩

/-- The pull results of successive traversals of the same sequence
object, one schedule per traversal: each `Symbol.asyncIterator` call
re-executes the same body (fresh listener state, renewed
`send({q, id, params})`), and the server re-runs the handler for each
received query message, so each traversal is one full protocol round. -/
def queryTraversals (V : Type) (auth : Option AuthConfig)
    (queryHandlers : String → Option (QueryEffect V)) (userId : Option Nat)
    (qname : String) (id : Nat) (schedules : List (List Act)) :
    List (List (PullRes V)) :=
  schedules.map (fun acts =>
    (queryTraversal V auth queryHandlers userId qname id acts).2)

/-- **C5, counterexample.** The claim asserts that after one traversal
of the sequence returned by `query` has completed, a second traversal
yields no further rows.  In the code each traversal re-executes the
`Symbol.asyncIterator` body, which re-registers the listener and
re-sends the query message; the server re-runs the handler.  With a
handler yielding `[10, 20]`, two successive complete traversals each
observe `[row 10, row 20, stop]`: the second traversal yields the rows
again rather than nothing. -/
theorem query_restart_counterexample :
    queryTraversals Nat none
        (fun n => if n = "nums" then some ⟨[10, 20], none⟩ else none)
        none "nums" 1
        [[Act.deliver, Act.pull, Act.deliver, Act.pull, Act.deliver,
            Act.pull],
          [Act.deliver, Act.pull, Act.deliver, Act.pull, Act.deliver,
            Act.pull]] =
      [[PullRes.row 10, PullRes.row 20, PullRes.stop],
        [PullRes.row 10, PullRes.row 20, PullRes.stop]] ∧
      (queryTraversals Nat none
          (fun n => if n = "nums" then some ⟨[10, 20], none⟩ else none)
          none "nums" 1
          [[Act.deliver, Act.pull, Act.deliver, Act.pull, Act.deliver,
              Act.pull],
            [Act.deliver, Act.pull, Act.deliver, Act.pull, Act.deliver,
              Act.pull]]).getD 1 [] ≠ [] := by
  constructor
  · decide
  · decide

/-- **C5, amended.** Every traversal of the sequence object is finite
(its observations stop at the first terminal result), but the sequence
is restartable rather than exhausted: a traversal that follows a
completed one re-issues the query under the same id and, for a handler
that yields its rows then completes, again observes the full row stream
followed by a clean stop. -/
theorem query_second_traversal (V : Type) (auth : Option AuthConfig)
    (queryHandlers : String → Option (QueryEffect V)) (userId : Option Nat)
    (qname : String) (id : Nat) (rows : List V)
    (acts1 acts2 : List Act)
    (hreg : queryHandlers qname = some ⟨rows, none⟩)
    (hauth : (requiresAuth auth qname && userId.isNone) = false)
    (hterm : ((queryTraversals V auth queryHandlers userId qname id
        [acts1, acts2]).getD 1 []).any isTerm = true) :
    untilTerm ((queryTraversals V auth queryHandlers userId qname id
        [acts1, acts2]).getD 1 []) =
      rows.map PullRes.row ++ [PullRes.stop] := by
  have hsecond : (queryTraversals V auth queryHandlers userId qname id
      [acts1, acts2]).getD 1 [] =
      (queryTraversal V auth queryHandlers userId qname id acts2).2 := by
    simp [queryTraversals]
  rw [hsecond] at hterm ⊢
  have hq : (handleQuery V auth queryHandlers userId ⟨qname, id⟩).filterMap
      (streamFor V id) = rows.map QMsg.row ++ [QMsg.endq] := by
    unfold handleQuery
    rw [hreg]
    simp only [hauth, if_false]
    exact streamFor_end V id rows
  unfold queryTraversal at hterm ⊢
  rw [hq] at hterm ⊢
  have := run_success rows acts2 (iterInit V) (rows.map QMsg.row ++ [QMsg.endq])
    [] ⟨rfl, Or.inl ⟨rfl, rows, by simp [iterInit], rfl⟩⟩ hterm
  simpa using this

/-- Witness for `query_second_traversal`: the second of two eager
traversals of a `[10, 20]` handler observes the full stream again. -/
theorem query_second_traversal_witness :
    (((queryTraversals Nat none
        (fun n => if n = "nums" then some ⟨[10, 20], none⟩ else none)
        none "nums" 1
        [[Act.pull, Act.deliver, Act.deliver, Act.deliver, Act.pull,
            Act.pull, Act.pull],
          [Act.deliver, Act.pull, Act.deliver, Act.pull, Act.deliver,
            Act.pull]]).getD 1 []).any isTerm = true) ∧
      untilTerm ((queryTraversals Nat none
          (fun n => if n = "nums" then some ⟨[10, 20], none⟩ else none)
          none "nums" 1
          [[Act.pull, Act.deliver, Act.deliver, Act.deliver, Act.pull,
              Act.pull, Act.pull],
            [Act.deliver, Act.pull, Act.deliver, Act.pull, Act.deliver,
              Act.pull]]).getD 1 []) =
        [PullRes.row 10, PullRes.row 20, PullRes.stop] :=
  ⟨by decide,
    query_second_traversal Nat none
      (fun n => if n = "nums" then some ⟨[10, 20], none⟩ else none)
      none "nums" 1 [10, 20]
      [Act.pull, Act.deliver, Act.deliver, Act.deliver, Act.pull, Act.pull,
        Act.pull]
      [Act.deliver, Act.pull, Act.deliver, Act.pull, Act.deliver, Act.pull]
      (by decide) (by decide) (by decide)⟩

/-! ## Event fan-out

server.ts lines 70-86 (`emit`): for every entry of the subscription
index (pattern → set of session ids) whose pattern matches the channel,
the event is sent to every session id in that entry's set.  client.ts
lines 244-252 (`onmessage` event branch): for every entry of
`eventListeners` (pattern → set of listeners) whose pattern matches the
event name, every listener in the set is invoked.  Sets are modelled as
duplicate-free lists; listeners are identified by opaque ids. -/

/-- The sequence of per-session send operations performed by
`emit(channel, payload)`, in index iteration order. -/
def emitSends (index : List (Str × List Nat)) (channel : Str) : List Nat :=
  ((index.filter (fun e => matchPattern e.1 channel)).map (fun e => e.2)).flatten

/-- The sequence of listener invocations performed by the client when an
event message for channel `ev` arrives. -/
def clientEventFires (listeners : List (Str × List Nat)) (ev : Str) :
    List Nat :=
  ((listeners.filter (fun e => matchPatternClient e.1 ev)).map
    (fun e => e.2)).flatten

lemma count_join_filter (sid : Nat) (P : Str × List Nat → Bool) :
    ∀ (idx : List (Str × List Nat)), (∀ e ∈ idx, e.2.count sid ≤ 1) →
    (((idx.filter P).map (fun e => e.2)).flatten.count sid) =
      (idx.filter (fun e => P e && e.2.contains sid)).length := by
  intro idx
  induction idx with
  | nil => intro _; simp
  | cons e idx ih =>
    intro hle
    have hhead : e.2.count sid ≤ 1 := hle e (by simp)
    have hrest : ∀ x ∈ idx, x.2.count sid ≤ 1 := fun x hx => hle x (by simp [hx])
    cases hP : P e with
    | false => simp [hP, ih hrest]
    | true =>
      by_cases hmem : sid ∈ e.2
      · have hone : e.2.count sid = 1 :=
          Nat.le_antisymm hhead (List.count_pos_iff.mpr hmem)
        simp [hP, hmem, List.filter_cons, List.count_append, hone, ih hrest,
          Nat.add_comm]
      · have hzero : e.2.count sid = 0 := by
          simpa [List.count_eq_zero] using hmem
        simp [hP, hmem, List.filter_cons, List.count_append, hzero, ih hrest]

/-- **C10.** Event delivery is per matching pattern, not deduplicated
per recipient: the number of copies of an emitted event a session
receives equals the number of matching index entries whose set contains
it (so two distinct matching patterns → two sends), and likewise the
number of invocations of a client listener equals the number of matching
patterns under which it is registered. -/
theorem event_fanout_per_pattern (index listeners : List (Str × List Nat))
    (channel : Str) (sid lid : Nat)
    (hidx : ∀ e ∈ index, e.2.count sid ≤ 1)
    (hlis : ∀ e ∈ listeners, e.2.count lid ≤ 1) :
    (emitSends index channel).count sid =
        (index.filter
          (fun e => matchPattern e.1 channel && e.2.contains sid)).length ∧
      (clientEventFires listeners channel).count lid =
        (listeners.filter
          (fun e => matchPatternClient e.1 channel && e.2.contains lid)).length := by
  constructor
  · exact count_join_filter sid (fun e => matchPattern e.1 channel) index hidx
  · exact count_join_filter lid (fun e => matchPatternClient e.1 channel)
      listeners hlis

/-- Witness for `event_fanout_per_pattern`: session 7 subscribed under
both `x*` and `x.y`, and a client listener 9 registered under the same
two patterns, each receive the event on channel `x.y` twice. -/
theorem event_fanout_per_pattern_witness :
    (emitSends [(['x', '*'], [7]), (['x', '.', 'y'], [7])]
        ['x', '.', 'y']).count 7 = 2 ∧
      (clientEventFires [(['x', '*'], [9]), (['x', '.', 'y'], [9])]
        ['x', '.', 'y']).count 9 = 2 := by
  have h := event_fanout_per_pattern
    [(['x', '*'], [7]), (['x', '.', 'y'], [7])]
    [(['x', '*'], [9]), (['x', '.', 'y'], [9])]
    ['x', '.', 'y'] 7 9 (by decide) (by decide)
  exact ⟨h.1.trans (by decide), h.2.trans (by decide)⟩

/-! ## Server subscription state machine

server.ts: the live session table `clients` (session id → socket, with
each socket's `ws.data.subscriptions` pattern set) and the subscription
index `subscriptions` (pattern → set of session ids).  Transitions:
connection open (`websocket.open` plus the upgrade that creates
`subscriptions: new Set()`), the `sub` and `unsub` branches of
`handleMessage` (lines 221-233), and `websocket.close` (lines 293-298).
JS `Map`s are modelled as functions (absent key ≘ `none` / empty set);
JS `Set`s as duplicate-free lists with `add`/`delete`. -/

/-- JS `Set.add`: no-op when the element is present. -/
def setAdd {α : Type} [DecidableEq α] (l : List α) (a : α) : List α :=
  if a ∈ l then l else l ++ [a]

/-- JS `Set.delete`: removes the element. -/
def setDel {α : Type} [DecidableEq α] (l : List α) (a : α) : List α :=
  l.filter (fun x => x != a)

lemma mem_setAdd {α : Type} [DecidableEq α] (l : List α) (a b : α) :
    b ∈ setAdd l a ↔ b ∈ l ∨ b = a := by
  unfold setAdd
  by_cases h : a ∈ l
  · rw [if_pos h]
    constructor
    · exact Or.inl
    · rintro (hb | rfl)
      · exact hb
      · exact h
  · rw [if_neg h]
    simp

lemma mem_setDel {α : Type} [DecidableEq α] (l : List α) (a b : α) :
    b ∈ setDel l a ↔ b ∈ l ∧ b ≠ a := by
  unfold setDel
  simp

/-- The dispatch engine's session/subscription state: the live session
table (session id → the session's own pattern set) and the subscription
index (pattern → set of subscribed session ids). -/
structure SrvState where
  clients : Nat → Option (List String)
  index : String → List Nat

/-- Before any connection: empty table, empty index. -/
def initState : SrvState := ⟨fun _ => none, fun _ => []⟩

/-- Connection open: a fresh session enters the live table with an empty
pattern set (`fetch` upgrade data plus `websocket.open`). -/
def doOpen (st : SrvState) (sid : Nat) : SrvState :=
  { clients := fun s => if s = sid then some [] else st.clients s,
    index := st.index }

/-- `sub` branch (server.ts lines 221-227): add the pattern to the
session's set, ensure an index entry exists, add the session id to it. -/
def doSub (st : SrvState) (sid : Nat) (p : String) : SrvState :=
  { clients := fun s =>
      if s = sid then (st.clients s).map (fun subs => setAdd subs p)
      else st.clients s,
    index := fun q => if q = p then setAdd (st.index q) sid else st.index q }

/-- `unsub` branch (server.ts lines 229-233): delete the pattern from
the session's set and the session id from the index entry. -/
def doUnsub (st : SrvState) (sid : Nat) (p : String) : SrvState :=
  { clients := fun s =>
      if s = sid then (st.clients s).map (fun subs => setDel subs p)
      else st.clients s,
    index := fun q => if q = p then setDel (st.index q) sid else st.index q }

/-- `websocket.close` (server.ts lines 293-298): delete the session from
the live table and its id from the index entry of every pattern in the
session's own set (`subs`). -/
def doClose (st : SrvState) (sid : Nat) (subs : List String) : SrvState :=
  { clients := fun s => if s = sid then none else st.clients s,
    index := fun q => if q ∈ subs then setDel (st.index q) sid else st.index q }

/-- One server transition.  `sub`/`unsub`/`close` fire only for a live
session (the transport invokes `message` and `close` only between `open`
and `close` of that socket), and `open` only with a fresh id
(`crypto.randomUUID`). -/
inductive Step : SrvState → SrvState → Prop where
  | openConn (st : SrvState) (sid : Nat) (h : st.clients sid = none) :
      Step st (doOpen st sid)
  | subscribe (st : SrvState) (sid : Nat) (p : String) (subs : List String)
      (h : st.clients sid = some subs) : Step st (doSub st sid p)
  | unsubscribe (st : SrvState) (sid : Nat) (p : String) (subs : List String)
      (h : st.clients sid = some subs) : Step st (doUnsub st sid p)
  | disconnect (st : SrvState) (sid : Nat) (subs : List String)
      (h : st.clients sid = some subs) : Step st (doClose st sid subs)

/-- States reachable from the initial state by any sequence of
connection-open, subscribe, unsubscribe and disconnect operations. -/
inductive Reachable : SrvState → Prop where
  | init : Reachable initState
  | step {st st' : SrvState} : Reachable st → Step st st' → Reachable st'

/-- The consistency relation of the claim: a session id is in the index
entry of a pattern iff the session is live and the pattern is in that
session's own set. -/
def Consistent (st : SrvState) : Prop :=
  ∀ (s : Nat) (p : String),
    s ∈ st.index p ↔ ∃ subs, st.clients s = some subs ∧ p ∈ subs

lemma consistent_init : Consistent initState := by
  intro s p
  simp [initState]

lemma consistent_step {st st' : SrvState} (hc : Consistent st)
    (hs : Step st st') : Consistent st' := by
  cases hs with
  | openConn sid h =>
    intro s p
    simp only [doOpen]
    by_cases hss : s = sid
    · subst hss
      rw [if_pos rfl, hc s p, h]
      simp
    · rw [if_neg hss]
      exact hc s p
  | subscribe sid p0 subs0 h =>
    intro s p
    simp only [doSub]
    by_cases hss : s = sid
    · subst hss
      rw [if_pos rfl, h]
      by_cases hpp : p = p0
      · subst hpp
        rw [if_pos rfl]
        simp [mem_setAdd]
      · rw [if_neg hpp, hc s p, h]
        simp [mem_setAdd, hpp]
    · rw [if_neg hss]
      by_cases hpp : p = p0
      · subst hpp
        rw [if_pos rfl]
        rw [← hc s p]
        simp [mem_setAdd, hss]
      · rw [if_neg hpp]
        exact hc s p
  | unsubscribe sid p0 subs0 h =>
    intro s p
    simp only [doUnsub]
    by_cases hss : s = sid
    · subst hss
      rw [if_pos rfl, h]
      by_cases hpp : p = p0
      · subst hpp
        rw [if_pos rfl]
        simp [mem_setDel]
      · rw [if_neg hpp, hc s p, h]
        simp [mem_setDel, hpp]
    · rw [if_neg hss]
      by_cases hpp : p = p0
      · subst hpp
        rw [if_pos rfl]
        rw [← hc s p]
        simp [mem_setDel, hss]
      · rw [if_neg hpp]
        exact hc s p
  | disconnect sid subs0 h =>
    intro s p
    simp only [doClose]
    by_cases hss : s = sid
    · subst hss
      rw [if_pos rfl]
      by_cases hpp : p ∈ subs0
      · rw [if_pos hpp]
        simp [mem_setDel]
      · rw [if_neg hpp, hc s p, h]
        simp [hpp]
    · rw [if_neg hss]
      by_cases hpp : p ∈ subs0
      · rw [if_pos hpp]
        rw [← hc s p]
        simp [mem_setDel, hss]
      · rw [if_neg hpp]
        exact hc s p

/-- **C6.** In every reachable server state, the subscription index and
the sessions' own pattern sets are consistent: a session id is in the
index entry for a pattern iff the session is live and the pattern is in
its set; in particular, disconnecting a live session removes it from the
live table and from every index entry that referenced it. -/
theorem subscription_index_consistent (st : SrvState) (hr : Reachable st) :
    Consistent st ∧
      ∀ sid subs, st.clients sid = some subs →
        (doClose st sid subs).clients sid = none ∧
        ∀ p, sid ∉ (doClose st sid subs).index p := by
  have hc : Consistent st := by
    induction hr with
    | init => exact consistent_init
    | step hr hs ih => exact consistent_step ih hs
  refine ⟨hc, ?_⟩
  intro sid subs hsid
  constructor
  · simp [doClose]
  · intro p
    simp only [doClose]
    by_cases hpp : p ∈ subs
    · rw [if_pos hpp]
      simp [mem_setDel]
    · rw [if_neg hpp]
      intro hmem
      obtain ⟨subs2, hcl, hp2⟩ := (hc sid p).mp hmem
      rw [hsid] at hcl
      cases hcl
      exact hpp hp2

/-- Witness for `subscription_index_consistent` at a concrete reachable
state: sessions 0 and 1 both open and subscribed to `a`; the state is
consistent, and closing session 0 removes it from the table and from
every index entry. -/
theorem subscription_index_consistent_witness :
    Consistent (doSub (doOpen (doSub (doOpen initState 0) 0 "a") 1) 1 "a") ∧
      ((doClose (doSub (doOpen (doSub (doOpen initState 0) 0 "a") 1) 1 "a")
          0 ["a"]).clients 0 = none ∧
        ∀ p, 0 ∉ (doClose
          (doSub (doOpen (doSub (doOpen initState 0) 0 "a") 1) 1 "a")
          0 ["a"]).index p) := by
  have h1 : Reachable (doOpen initState 0) :=
    Reachable.step Reachable.init (Step.openConn initState 0 rfl)
  have h2 : Reachable (doSub (doOpen initState 0) 0 "a") :=
    Reachable.step h1 (Step.subscribe (doOpen initState 0) 0 "a" [] rfl)
  have h3 : Reachable (doOpen (doSub (doOpen initState 0) 0 "a") 1) :=
    Reachable.step h2 (Step.openConn (doSub (doOpen initState 0) 0 "a") 1 rfl)
  have h4 : Reachable
      (doSub (doOpen (doSub (doOpen initState 0) 0 "a") 1) 1 "a") :=
    Reachable.step h3 (Step.subscribe
      (doOpen (doSub (doOpen initState 0) 0 "a") 1) 1 "a" [] rfl)
  have h := subscription_index_consistent
    (doSub (doOpen (doSub (doOpen initState 0) 0 "a") 1) 1 "a") h4
  exact ⟨h.1, h.2 0 ["a"] (by decide)⟩

end Seiro
